import Mathlib

/-!
Verification of the follio repository's batch-upload importer and library
persistence logic against its natural-language specification.

The development is a shallow embedding of the TypeScript source:

* `slugifyProjectName` embeds `src/lib/utils.ts`;
* the ZIP-entry classification and grouping functions embed
  `extractArchiveProjects` and its helpers from
  `src/app/api/library/batch-upload/route.ts`;
* the database transaction bodies embed the `prisma.$transaction` callbacks
  of the batch-upload route and of the library save route;
* the gallery persistence functions embed `src/lib/gallery.ts` together with
  the unique index `GalleryImage_userId_checksum_key` from the migration
  `20251117190000_add_gallery_images`.

External services are abstracted: the SHA-256 digest, the Cloudinary
uploader and the UUID generator enter as explicit function parameters, and
Prisma's interactive transaction is modelled by a runner that either applies
the whole transaction body or leaves the database untouched.
-/

namespace Follio

/-! ## slugifyProjectName (src/lib/utils.ts) -/

/-- Character class `[a-z0-9]`: the characters that `slugifyProjectName`
keeps unchanged. -/
def isSlugChar (c : Char) : Bool :=
  ('a' ≤ c && c ≤ 'z') || ('0' ≤ c && c ≤ '9')

/-- Boolean test for the underscore character. -/
def isUnderscore (c : Char) : Bool :=
  c == '_'

/-- JavaScript `String.prototype.trim`: whitespace is removed from both ends
of the string.  (JS trims the Unicode whitespace class; `Char.isWhitespace`
covers the ASCII part, which is all that the slug pipeline can observe,
since every non-`[a-z0-9]` character is replaced by `_` afterwards.) -/
def jsTrim (l : List Char) : List Char :=
  ((l.dropWhile Char.isWhitespace).reverse.dropWhile Char.isWhitespace).reverse

/-- Embedding of `.replace(/_{2,}/g, "_")`: every maximal run of two or more
underscores is collapsed to a single underscore.  (The run is collapsed by
repeatedly dropping the first of two adjacent underscores, which keeps one
underscore per run, at the run's position.) -/
def collapseUnderscoreRuns : List Char → List Char
  | [] => []
  | [c] => [c]
  | c :: d :: rest =>
    if c = '_' ∧ d = '_' then collapseUnderscoreRuns (d :: rest)
    else c :: collapseUnderscoreRuns (d :: rest)

/-- Embedding of `.replace(/^_+|_+$/g, "")`: leading and trailing underscore
runs are removed. -/
def stripEdgeUnderscores (l : List Char) : List Char :=
  ((l.dropWhile isUnderscore).reverse.dropWhile isUnderscore).reverse

/-- The `normalized` value computed inside `slugifyProjectName`
(`src/lib/utils.ts`): trim, lower-case, replace `[^a-z0-9]+` runs with `_`,
collapse `_{2,}` runs, strip edge underscores.  The regex replacement
`.replace(/[^a-z0-9]+/g, "_")` is embedded as a character-wise map to `_`
followed by one `collapseUnderscoreRuns` pass, which produces the same
string because `_` itself matches `[^a-z0-9]`; the second
`collapseUnderscoreRuns` pass is the source's `.replace(/_{2,}/g, "_")`. -/
def slugNormalize (name : String) : List Char :=
  stripEdgeUnderscores
    (collapseUnderscoreRuns
      (collapseUnderscoreRuns
        (((jsTrim name.data).map Char.toLower).map
          (fun c => if isSlugChar c then c else '_'))))

/-- Embedding of `slugifyProjectName` (`src/lib/utils.ts`). -/
def slugifyProjectName (name : String) : String :=
  let normalized := slugNormalize name
  if normalized.length = 0 then "cover_project"
  else String.mk (normalized.take 60)

/-- Adjacency relation used to state "no two consecutive underscores". -/
def noDoubleUnderscore (a b : Char) : Prop :=
  ¬(a = '_' ∧ b = '_')

/-! ## ZIP entry classification and grouping
(`extractArchiveProjects` and helpers, `src/app/api/library/batch-upload/route.ts`) -/

/-- JavaScript `String.prototype.toLowerCase`, restricted to the ASCII case
mapping of `Char.toLower` (the importer only compares the result against the
ASCII strings `"root"` and `"__macosx/"` and the `[a-z0-9]` slug class). -/
def jsToLower (s : String) : String :=
  String.mk (s.data.map Char.toLower)

/-- JavaScript truthiness of an optional string: `undefined`/`null` and the
empty string are falsy. -/
def jsTruthyStr (o : Option String) : Bool :=
  match o with
  | none => false
  | some s => s ≠ ""

/-- The standard base64 alphabet. -/
def base64Table : List Char :=
  "ABCDEFGHIJKLMNOPQRSTUVWXYZabcdefghijklmnopqrstuvwxyz0123456789+/".data

/-- Digit lookup in the base64 alphabet. -/
def base64Digit (n : Nat) : Char :=
  base64Table.getD n 'A'

/-- Node's `Buffer.prototype.toString("base64")`: standard base64 with `=`
padding, three input bytes per four output characters. -/
def base64Encode : List Nat → List Char
  | [] => []
  | [b1] => [base64Digit (b1 / 4), base64Digit (b1 % 4 * 16), '=', '=']
  | [b1, b2] =>
    [base64Digit (b1 / 4), base64Digit (b1 % 4 * 16 + b2 / 16),
      base64Digit (b2 % 16 * 4), '=']
  | b1 :: b2 :: b3 :: rest =>
    base64Digit (b1 / 4) :: base64Digit (b1 % 4 * 16 + b2 / 16)
      :: base64Digit (b2 % 16 * 4 + b3 / 64) :: base64Digit (b3 % 64)
      :: base64Encode rest

/-- Base64 of a byte list as a string. -/
def base64EncodeStr (bs : List Nat) : String :=
  String.mk (base64Encode bs)

/-- Character-list splitter on a separator predicate, with the semantics of
JavaScript `String.prototype.split` on a single-character class: empty
pieces are kept (the callers filter them out). -/
def splitByPred (p : Char → Bool) : List Char → List (List Char)
  | [] => [[]]
  | c :: rest =>
    let r := splitByPred p rest
    if p c then [] :: r
    else
      match r with
      | [] => [[c]]
      | piece :: more => (c :: piece) :: more

/-- JavaScript `Array.prototype.join` over strings. -/
def joinWith (sep : String) : List String → String
  | [] => ""
  | [s] => s
  | s :: rest => s ++ sep ++ joinWith sep rest

/-- Boolean test that `pre` is a leading run of `l`. -/
def leadingMatch : List Char → List Char → Bool
  | [], _ => true
  | _ :: _, [] => false
  | a :: as, b :: bs => a == b && leadingMatch as bs

/-- JavaScript `String.prototype.startsWith`. -/
def strStartsWith (s pre : String) : Bool :=
  leadingMatch pre.data s.data

/-- Embedding of `getFileExtension` (batch-upload route): lower-case the
name, find the last `.`, and return the part after it; `null` when there is
no dot or the dot is the final character. -/
def getFileExtension (fileName : String) : Option String :=
  let normalized := (jsToLower fileName).data
  if normalized.contains '.' = false then none
  else
    let after := (normalized.reverse.takeWhile (fun c => c ≠ '.')).reverse
    if after = [] then none else some (String.mk after)

/-- Embedding of the `EXTENSION_TO_MIME` record of the batch-upload route. -/
def EXTENSION_TO_MIME (ext : String) : Option String :=
  if ext = "png" then some "image/png"
  else if ext = "jpg" then some "image/jpeg"
  else if ext = "jpeg" then some "image/jpeg"
  else if ext = "webp" then some "image/webp"
  else none

/-- The `ACCEPTED_IMAGE_TYPES` constant of the batch-upload route. -/
def ACCEPTED_IMAGE_TYPES : List String :=
  ["image/png", "image/jpeg", "image/webp"]

/-- The `MAX_IMAGES_PER_ARCHIVE` constant of the batch-upload route. -/
def MAX_IMAGES_PER_ARCHIVE : Nat := 60

/-- The `MAX_IMAGES_PER_PROJECT` constant of the batch-upload route. -/
def MAX_IMAGES_PER_PROJECT : Nat := 3

/-- Embedding of `sanitizeFileName`: split the entry name on `/` and `\`,
drop empty pieces, and re-join with `-`. -/
def sanitizeFileName (entryName : String) : String :=
  joinWith "-"
    (((splitByPred (fun c => c == '/' || c == '\\') entryName.data).map String.mk).filter
      (fun s => s ≠ ""))

/-- Embedding of `.replace(/\\+/g, "/")`: every maximal run of backslashes
becomes one forward slash. -/
def replaceBackslashRuns : List Char → List Char
  | [] => []
  | [c] => if c = '\\' then ['/'] else [c]
  | c :: d :: rest =>
    if c = '\\' then
      if d = '\\' then replaceBackslashRuns (d :: rest)
      else '/' :: replaceBackslashRuns (d :: rest)
    else c :: replaceBackslashRuns (d :: rest)

/-- The `segments` value of the extraction loop: normalize backslashes to
slashes, split on `/`, and drop empty segments (`.filter(Boolean)`). -/
def pathSegments (name : String) : List String :=
  (((splitByPred (fun c => c == '/') (replaceBackslashRuns name.data)).map String.mk).filter
    (fun s => s ≠ ""))

/-- Embedding of `resolveProjectSegment`: the first segment names the
project, except that a first segment equal to `"root"` (case-insensitive)
defers to the second segment. -/
def resolveProjectSegment : List String → Option String
  | [] => none
  | s0 :: rest => if jsToLower s0 = "root" then rest.head? else some s0

/-- Embedding of the `GenerationImageInput` shape
(`generationImageSchema`, `src/lib/validation/generate.ts`). -/
structure GenerationImageInput where
  id : String
  name : String
  uploadUrl : Option String := none
  base64 : Option String := none
  mimeType : String
  sizeBytes : Nat
  width : Option Nat := none
  height : Option Nat := none
deriving DecidableEq

/-- Embedding of the `ProjectGroup` record of the batch-upload route. -/
structure ProjectGroup where
  slug : String
  name : String
  inputs : List GenerationImageInput
deriving DecidableEq

/-- A decompressed ZIP entry as JSZip presents it to the extraction loop:
its (slash- or backslash-separated) path, its directory flag, and its
decompressed bytes. -/
structure ZipEntry where
  name : String
  dir : Bool
  data : List Nat
deriving DecidableEq

/-- The data gathered about a ZIP entry that passes every filter of the
extraction loop. -/
structure AcceptedEntry where
  slug : String
  projectName : String
  relativeName : String
  mimeType : String
  bytes : List Nat
deriving DecidableEq

/-- The `fileSegments` value of the extraction loop: the path with the
project folder (and a leading `root` folder, when present) removed. -/
def entryFileSegments (entry : ZipEntry) : List String :=
  let segments := pathSegments entry.name
  if jsToLower (segments.headD "") = "root" then segments.drop 2
  else segments.drop 1

/-- The `relativeName` value of the extraction loop. -/
def entryRelativeName (entry : ZipEntry) : String :=
  joinWith "/" (entryFileSegments entry)

/-- Path-level filters of the extraction loop: directory entries, entries
under the archive's `__MACOSX/` folder, entries without a resolvable
project segment, entries whose project name trims to the empty string or
slugs to the empty string, entries without file segments, and entries whose
relative name is empty or starts with `._` are all rejected; otherwise the
slug, project name, and relative name are returned. -/
def resolveEntryPath (entry : ZipEntry) : Option (String × String × String) :=
  if entry.dir then none
  else if strStartsWith (jsToLower entry.name) "__macosx/" then none
  else
    match resolveProjectSegment (pathSegments entry.name) with
    | none => none
    | some projectSegment =>
      if String.mk (jsTrim projectSegment.data) = "" then none
      else if slugifyProjectName (String.mk (jsTrim projectSegment.data)) = "" then none
      else if entryFileSegments entry = [] then none
      else if entryRelativeName entry = "" then none
      else if strStartsWith (entryRelativeName entry) "._" then none
      else
        some (slugifyProjectName (String.mk (jsTrim projectSegment.data)),
          String.mk (jsTrim projectSegment.data), entryRelativeName entry)

/-- Full per-entry classification of the extraction loop: the path filters
of `resolveEntryPath` followed by the extension/MIME allow-list and the
non-empty-content check.  `none` means the entry is skipped. -/
def classifyEntry (entry : ZipEntry) : Option AcceptedEntry :=
  match resolveEntryPath entry with
  | none => none
  | some (slug, projectName, relativeName) =>
    match getFileExtension relativeName with
    | none => none
    | some ext =>
      match EXTENSION_TO_MIME ext with
      | none => none
      | some mimeType =>
        if ACCEPTED_IMAGE_TYPES.contains mimeType = false then none
        else if entry.data.length = 0 then none
        else some ⟨slug, projectName, relativeName, mimeType, entry.data⟩

/-- The `GenerationImageInput` built for an accepted entry; `uuid` stands
for the `randomUUID()` call. -/
def buildInput (uuid : String) (a : AcceptedEntry) : GenerationImageInput :=
  { id := uuid
    name := sanitizeFileName a.relativeName
    uploadUrl := none
    base64 := some ("data:" ++ a.mimeType ++ ";base64," ++ base64EncodeStr a.bytes)
    mimeType := a.mimeType
    sizeBytes := a.bytes.length }

/-- JavaScript `Map.prototype.get` over the insertion-ordered association
list that models the `groups` map. -/
def lookupGroup (slug : String) : List (String × ProjectGroup) → Option ProjectGroup
  | [] => none
  | (k, g) :: rest => if k = slug then some g else lookupGroup slug rest

/-- The group update of the extraction loop: an existing group gains the
input unless it already holds `MAX_IMAGES_PER_PROJECT` inputs; a missing
group is appended at the end of the map with the input as its first
element. -/
def insertIntoGroups (slug projectName : String) (input : GenerationImageInput) :
    List (String × ProjectGroup) → List (String × ProjectGroup)
  | [] => [(slug, ⟨slug, projectName, [input]⟩)]
  | (k, g) :: rest =>
    if k = slug then
      if MAX_IMAGES_PER_PROJECT ≤ g.inputs.length then (k, g) :: rest
      else (k, { g with inputs := g.inputs ++ [input] }) :: rest
    else (k, g) :: insertIntoGroups slug projectName input rest

/-- One iteration of the extraction loop. -/
def processEntry (uuid : String) (groups : List (String × ProjectGroup))
    (entry : ZipEntry) : List (String × ProjectGroup) :=
  match classifyEntry entry with
  | none => groups
  | some a => insertIntoGroups a.slug a.projectName (buildInput uuid a) groups

/-- The extraction loop over the remaining entries; `i` numbers the entries
so that the `uuid` supply can hand each accepted entry its own id. -/
def extractFrom (uuid : Nat → String) :
    Nat → List (String × ProjectGroup) → List ZipEntry → List (String × ProjectGroup)
  | _, groups, [] => groups
  | i, groups, e :: rest => extractFrom uuid (i + 1) (processEntry (uuid i) groups e) rest

/-- Embedding of `extractArchiveProjects`: fold the per-entry classification
over the archive's entries, starting from the empty map. -/
def extractArchiveProjects (uuid : Nat → String) (entries : List ZipEntry) :
    List (String × ProjectGroup) :=
  extractFrom uuid 0 [] entries

/-- The first path segment of an entry after backslash normalization, with
`""` for an entry that has no segment at all. -/
def firstPathSegment (e : ZipEntry) : String :=
  (pathSegments e.name).headD ""

/-- A concrete id supply used by closed witness statements. -/
def natName (n : Nat) : String :=
  Nat.repr n

/-- A concrete image used by closed witness statements. -/
def witImage : GenerationImageInput :=
  { id := "w"
    name := "a.png"
    uploadUrl := none
    base64 := some "data:image/png;base64,AQ=="
    mimeType := "image/png"
    sizeBytes := 1 }

/-- The root-folder entry of the counterexample archive. -/
def ceRootEntry : ZipEntry := ⟨"root/alpha/x.png", false, [1]⟩

/-- The plain-folder entry of the counterexample archive. -/
def cePlainEntry : ZipEntry := ⟨"alpha/y.png", false, [1]⟩

/-! ## Database model and transaction bodies
(`prisma.$transaction` callbacks of the batch-upload route and of the
library save route, with the columns the claims mention) -/

/-- A `CoverProject` row (schema of migration `add_cover_library`; the
timestamp columns are omitted, no claim mentions them). -/
structure CoverProject where
  id : Nat
  userId : String
  name : String
  slug : String
  latestVersionNumber : Nat
  librarySelected : Bool := false
  libraryGenerationStatus : String := "WAITING"
  libraryGenerationJobId : Option String := none
deriving DecidableEq

/-- A `CoverVersion` row. -/
structure CoverVersion where
  projectId : Nat
  thumbnailJobId : Option String := none
  versionNumber : Nat
  label : String
  selectedImageUrl : String
  sourceImage1Url : Option String := none
  sourceImage2Url : Option String := none
  sourceImage3Url : Option String := none
  generatedImageUrls : Option (List String) := none
deriving DecidableEq

/-- A `GalleryImage` row (migration `add_gallery_images`; the JSON
metadata and Cloudinary bookkeeping columns are omitted, no claim mentions
them). -/
structure GalleryRow where
  userId : String
  jobId : Option String := none
  projectId : Option Nat := none
  projectName : Option String := none
  projectSlug : Option String := none
  isSourceAsset : Bool := false
  uploadUrl : String
  checksum : String
  mimeType : String
  sizeBytes : Nat
deriving DecidableEq

/-- The database state touched by the routes under verification. -/
structure Db where
  nextProjectId : Nat
  projects : List CoverProject
  versions : List CoverVersion
  gallery : List GalleryRow
deriving DecidableEq

/-- Prisma `coverProject.findUnique` on the unique key `(userId, slug)`. -/
def findProject (userId slug : String) (db : Db) : Option CoverProject :=
  db.projects.find? (fun p => p.userId == userId && p.slug == slug)

/-- The `$transaction` callback of the batch-upload route
(`route.ts` lines 235-288): find or create the project (a created project
starts at `latestVersionNumber` 0), insert the next `CoverVersion`, and
update the project's name, `latestVersionNumber` and library status fields;
the returned flag records whether the project was created. -/
def batchUploadBody (userId : String) (group : ProjectGroup)
    (sourceImageUrls : List (Option String)) (db : Db) : Db × CoverProject × Bool :=
  let existingProject := findProject userId group.slug db
  let found :=
    match existingProject with
    | some p => (p, db)
    | none =>
      let p : CoverProject :=
        { id := db.nextProjectId
          userId := userId
          name := group.name
          slug := group.slug
          latestVersionNumber := 0 }
      (p, { db with nextProjectId := db.nextProjectId + 1, projects := db.projects ++ [p] })
  let projectRecord := found.1
  let db1 := found.2
  let nextVersionNumber := projectRecord.latestVersionNumber + 1
  let version : CoverVersion :=
    { projectId := projectRecord.id
      thumbnailJobId := none
      versionNumber := nextVersionNumber
      label := projectRecord.slug ++ "_v" ++ Nat.repr nextVersionNumber
      selectedImageUrl := ""
      sourceImage1Url := sourceImageUrls.getD 0 none
      sourceImage2Url := sourceImageUrls.getD 1 none
      sourceImage3Url := sourceImageUrls.getD 2 none }
  let db2 := { db1 with versions := db1.versions ++ [version] }
  let updated := { projectRecord with
    name := group.name
    latestVersionNumber := nextVersionNumber
    librarySelected := true
    libraryGenerationStatus := "WAITING"
    libraryGenerationJobId := none }
  let db3 := { db2 with
    projects := db2.projects.map (fun p => if p.id = projectRecord.id then updated else p) }
  (db3, updated, existingProject.isNone)

/-- The `$transaction` callback of the library save route (second handler
of the related document, lines 400-451): an existing project bumps
`latestVersionNumber` by one, a missing project is created with
`latestVersionNumber` 1, and the new `CoverVersion` carries that number. -/
def saveCoverVersionBody (userId projectSlug normalizedProjectName jobId resultUrl : String)
    (allGeneratedUrls : List String) (db : Db) : Db × CoverProject × CoverVersion :=
  let found : Nat × CoverProject × Db :=
    match findProject userId projectSlug db with
    | some existingProject =>
      let versionNumber := existingProject.latestVersionNumber + 1
      let projectRecord := { existingProject with
        name := normalizedProjectName
        latestVersionNumber := versionNumber }
      let replaced : List CoverProject :=
        db.projects.map (fun p => if p.id = existingProject.id then projectRecord else p)
      (versionNumber, projectRecord, { db with projects := replaced })
    | none =>
      let projectRecord : CoverProject :=
        { id := db.nextProjectId
          userId := userId
          name := normalizedProjectName
          slug := projectSlug
          latestVersionNumber := 1 }
      let extended := db.projects ++ [projectRecord]
      (1, projectRecord,
        { db with nextProjectId := db.nextProjectId + 1, projects := extended })
  let versionNumber := found.1
  let projectRecord := found.2.1
  let db1 := found.2.2
  let version : CoverVersion :=
    { projectId := projectRecord.id
      thumbnailJobId := some jobId
      versionNumber := versionNumber
      label := projectRecord.slug ++ "_v" ++ Nat.repr versionNumber
      selectedImageUrl := resultUrl
      generatedImageUrls := if allGeneratedUrls.length = 0 then none else some allGeneratedUrls }
  ({ db1 with versions := db1.versions ++ [version] }, projectRecord, version)

/-- Model of Prisma's interactive `$transaction`: the callback either runs
to completion against the database or the whole transaction is rolled back
and the database is untouched.  The `fails` flag stands for any error
raised inside the transaction. -/
def runTransaction {α : Type} (fails : Bool) (body : Db → Db × α) (db : Db) :
    Except String (Db × α) :=
  if fails then Except.error "TransactionFailed"
  else Except.ok (body db)

/-! ## Gallery persistence (`src/lib/gallery.ts`) -/

/-- Embedding of `computeImageChecksum` (`src/lib/gallery.ts`): the digest
of the base64 payload, falling back to the upload URL and then to the image
id.  The `hash` parameter stands for the hex digest of node's SHA-256; the
claims do not depend on the digest's internals, only on what is hashed. -/
def computeImageChecksum (hash : String → String) (image : GenerationImageInput) : String :=
  if jsTruthyStr image.base64 then hash (image.base64.getD "")
  else if jsTruthyStr image.uploadUrl then hash (image.uploadUrl.getD "")
  else hash image.id

/-- Embedding of the `GalleryUploadContext` record of `src/lib/gallery.ts`
(restricted to the fields the rows under verification carry). -/
structure GalleryUploadContext where
  userId : String
  jobId : Option String := none
  projectName : Option String := none
  projectSlug : Option String := none
  projectId : Option Nat := none
  isSourceAsset : Bool := false
deriving DecidableEq

/-- The row built by `persistGalleryUploads` for one upload: `null` when
the uploaded image has no (truthy) upload URL, otherwise the `GalleryImage`
row whose checksum comes from the original input. -/
def galleryRowOf (hash : String → String) (ctx : GalleryUploadContext)
    (original uploaded : GenerationImageInput) : Option GalleryRow :=
  if jsTruthyStr uploaded.uploadUrl = false then none
  else some
    { userId := ctx.userId
      jobId := ctx.jobId
      projectId := ctx.projectId
      projectName := ctx.projectName
      projectSlug := ctx.projectSlug
      isSourceAsset := ctx.isSourceAsset
      uploadUrl := uploaded.uploadUrl.getD ""
      checksum := computeImageChecksum hash original
      mimeType := uploaded.mimeType
      sizeBytes := uploaded.sizeBytes }

/-- Prisma `createMany` with `skipDuplicates: true` against the unique
index `GalleryImage_userId_checksum_key`: rows are inserted in order and a
row whose `(userId, checksum)` pair already occurs (in the table or among
the rows inserted before it) is skipped instead of raising an error. -/
def createManySkipDuplicates (table rows : List GalleryRow) : List GalleryRow :=
  rows.foldl
    (fun t r =>
      if t.any (fun x => x.userId == r.userId && x.checksum == r.checksum) then t
      else t ++ [r])
    table

/-- Embedding of `persistGalleryUploads` (`src/lib/gallery.ts`): build a
row per upload that has an upload URL and bulk-insert them with
`skipDuplicates`.  An upload is the pair (original input, uploaded image). -/
def persistGalleryUploads (hash : String → String) (ctx : GalleryUploadContext)
    (uploads : List (GenerationImageInput × GenerationImageInput))
    (table : List GalleryRow) : List GalleryRow :=
  if uploads.length = 0 then table
  else
    let rows := uploads.filterMap (fun ou => galleryRowOf hash ctx ou.1 ou.2)
    if rows.length = 0 then table
    else createManySkipDuplicates table rows

/-! ## The batch-upload POST pipeline -/

/-- One group of the route's processing loop: upload the group's images
(`ensureImagesHaveCloudinaryUrls`, abstracted as `upl`), require a truthy
upload URL on the first asset, run the per-project transaction, and persist
the gallery rows.  The result carries the created flag and the number of
assets imported. -/
def stepGroup (hash : String → String)
    (upl : List GenerationImageInput → Except String (List GenerationImageInput))
    (txnFails : Bool) (userId : String) (g : ProjectGroup) (db : Db) :
    Except String (Db × Bool × Nat) :=
  match upl g.inputs with
  | Except.error e => Except.error e
  | Except.ok uploadedImages =>
    if jsTruthyStr (uploadedImages.head?.bind (fun im => im.uploadUrl)) = false then
      Except.error "Unable to resolve Cloudinary URL for the first asset."
    else
      match runTransaction txnFails
          (batchUploadBody userId g
            [(uploadedImages.get? 0).bind (fun im => im.uploadUrl),
              (uploadedImages.get? 1).bind (fun im => im.uploadUrl),
              (uploadedImages.get? 2).bind (fun im => im.uploadUrl)]) db with
      | Except.error e => Except.error e
      | Except.ok (db2, record, createdFlag) =>
        let ctx : GalleryUploadContext :=
          { userId := userId
            projectId := some record.id
            projectName := some record.name
            projectSlug := some record.slug
            isSourceAsset := true }
        let newGallery :=
          persistGalleryUploads hash ctx (g.inputs.zip uploadedImages) db2.gallery
        Except.ok ({ db2 with gallery := newGallery }, createdFlag, uploadedImages.length)

/-- The route's sequential loop over the project groups, threading the
database and the response counters; the first error aborts the loop,
carrying the database as left by the already-completed groups. -/
def processGroups (hash : String → String)
    (upl : List GenerationImageInput → Except String (List GenerationImageInput))
    (txnFails : Nat → Bool) (userId : String) :
    List ProjectGroup → Nat → Db → Nat → Nat → Nat →
      Except (String × Db) (Db × Nat × Nat × Nat)
  | [], _, db, processed, created, assets => Except.ok (db, processed, created, assets)
  | g :: rest, i, db, processed, created, assets =>
    if g.inputs.length = 0 then
      processGroups hash upl txnFails userId rest (i + 1) db processed created assets
    else
      match stepGroup hash upl (txnFails i) userId g db with
      | Except.error msg => Except.error (msg, db)
      | Except.ok (db2, createdFlag, assetCount) =>
        processGroups hash upl txnFails userId rest (i + 1) db2 (processed + 1)
          (created + if createdFlag then 1 else 0) (assets + assetCount)

/-- The total image count of the archive, as the route computes it. -/
def archiveTotalImages (uuid : Nat → String) (entries : List ZipEntry) : Nat :=
  ((extractArchiveProjects uuid entries).map (fun kg => kg.2.inputs.length)).sum

/-- The observable outcome of the POST handler: HTTP status, error code,
resulting database, and the success statistics. -/
structure PostOutcome where
  status : Nat
  error : Option String
  db : Db
  projects : Nat := 0
  projectsCreated : Nat := 0
  assets : Nat := 0
deriving DecidableEq

/-- The POST handler of the batch-upload route from extraction onward
(authentication and ZIP-shape validation return even earlier and touch
nothing): extract the groups, enforce the `NoImages` and `TooManyImages`
ceilings before any work, then run the loop; a loop error is caught once at
the top and reported as status 500 `BatchUploadFailed`. -/
def batchUploadPOST (hash : String → String)
    (upl : List GenerationImageInput → Except String (List GenerationImageInput))
    (txnFails : Nat → Bool) (uuid : Nat → String) (userId : String)
    (entries : List ZipEntry) (db : Db) : PostOutcome :=
  let projectGroups := extractArchiveProjects uuid entries
  let totalImages := (projectGroups.map (fun kg => kg.2.inputs.length)).sum
  if totalImages = 0 then
    { status := 400, error := some "NoImages", db := db }
  else if MAX_IMAGES_PER_ARCHIVE < totalImages then
    { status := 400, error := some "TooManyImages", db := db }
  else
    match processGroups hash upl txnFails userId (projectGroups.map Prod.snd) 0 db 0 0 0 with
    | Except.ok (db2, processed, created, assets) =>
      { status := 200
        error := none
        db := db2
        projects := processed
        projectsCreated := created
        assets := assets }
    | Except.error (_msg, dbPartial) =>
      { status := 500, error := some "BatchUploadFailed", db := dbPartial }

/-- The empty database, used by closed witness statements. -/
def emptyDb : Db := ⟨0, [], [], []⟩

/-- A concrete stand-in digest for closed witness statements. -/
def idHash (s : String) : String := s

/-- A concrete uploader that assigns every input a URL derived from its id. -/
def okUploader (imgs : List GenerationImageInput) :
    Except String (List GenerationImageInput) :=
  Except.ok (imgs.map (fun im =>
    { im with uploadUrl := some ("https://cdn.example/" ++ im.id), base64 := none }))

/-- A concrete uploader that always fails. -/
def failUploader (_imgs : List GenerationImageInput) :
    Except String (List GenerationImageInput) :=
  Except.error "UploadFailed"

/-- A transaction oracle under which no transaction fails. -/
def noFail (_n : Nat) : Bool := false

/-- A 61-image archive (61 one-image project folders). -/
def bigArchive : List ZipEntry :=
  (List.range 61).map (fun i => ⟨natName i ++ "/a.png", false, [1]⟩)

/-! ## Gallery checksum and dedup (claim C8) -/

/-- The relation enforced by the unique index on `(userId, checksum)`. -/
def distinctKey (x y : GalleryRow) : Prop :=
  ¬(x.userId = y.userId ∧ x.checksum = y.checksum)

/-- An uploaded image carrying a Cloudinary URL, for the witness below. -/
def witUploaded : GenerationImageInput :=
  { id := "w"
    name := "a.png"
    uploadUrl := some "https://cdn.example/w"
    base64 := none
    mimeType := "image/png"
    sizeBytes := 1 }

/-- The gallery row `persistGalleryUploads` builds for `witImage` /
`witUploaded`. -/
def witRow : GalleryRow :=
  { userId := "u"
    uploadUrl := "https://cdn.example/w"
    checksum := computeImageChecksum idHash witImage
    mimeType := "image/png"
    sizeBytes := 1 }

example : slugifyProjectName "My Cover!!" = "my_cover" := by decide

example : slugifyProjectName "  __  " = "cover_project" := by decide

example : slugifyProjectName "Alpha  Beta-3" = "alpha_beta_3" := by decide

/-- Membership is preserved backwards through `collapseUnderscoreRuns`. -/
theorem mem_collapseUnderscoreRuns :
    ∀ (l : List Char) (x : Char), x ∈ collapseUnderscoreRuns l → x ∈ l := by
  intro l
  induction l with
  | nil => intro x h; simp [collapseUnderscoreRuns] at h
  | cons c rest ih =>
    intro x h
    cases rest with
    | nil => simpa [collapseUnderscoreRuns] using h
    | cons d t =>
      by_cases hcd : c = '_' ∧ d = '_'
      · rw [show collapseUnderscoreRuns (c :: d :: t) = collapseUnderscoreRuns (d :: t) from by
          simp [collapseUnderscoreRuns, hcd]] at h
        exact List.mem_cons_of_mem c (ih x h)
      · rw [show collapseUnderscoreRuns (c :: d :: t) = c :: collapseUnderscoreRuns (d :: t) from by
          simp [collapseUnderscoreRuns, hcd]] at h
        rcases List.mem_cons.1 h with h1 | h2
        · exact h1 ▸ List.mem_cons_self c (d :: t)
        · exact List.mem_cons_of_mem c (ih x h2)

/-- `collapseUnderscoreRuns` preserves the head of a non-empty list. -/
theorem collapseUnderscoreRuns_head :
    ∀ (t : List Char) (c : Char), (collapseUnderscoreRuns (c :: t)).head? = some c := by
  intro t
  induction t with
  | nil => intro c; simp [collapseUnderscoreRuns]
  | cons d t2 ih =>
    intro c
    by_cases hcd : c = '_' ∧ d = '_'
    · rw [show collapseUnderscoreRuns (c :: d :: t2) = collapseUnderscoreRuns (d :: t2) from by
        simp [collapseUnderscoreRuns, hcd]]
      rw [ih d, hcd.1, hcd.2]
    · rw [show collapseUnderscoreRuns (c :: d :: t2) = c :: collapseUnderscoreRuns (d :: t2) from by
        simp [collapseUnderscoreRuns, hcd]]
      rfl

/-- After `collapseUnderscoreRuns` no two adjacent characters are both
underscores. -/
theorem collapseUnderscoreRuns_chain :
    ∀ (l : List Char), (collapseUnderscoreRuns l).Chain' noDoubleUnderscore := by
  intro l
  induction l with
  | nil => simp [collapseUnderscoreRuns]
  | cons c rest ih =>
    cases rest with
    | nil => simp [collapseUnderscoreRuns, List.chain'_singleton]
    | cons d t =>
      by_cases hcd : c = '_' ∧ d = '_'
      · rw [show collapseUnderscoreRuns (c :: d :: t) = collapseUnderscoreRuns (d :: t) from by
          simp [collapseUnderscoreRuns, hcd]]
        exact ih
      · rw [show collapseUnderscoreRuns (c :: d :: t) = c :: collapseUnderscoreRuns (d :: t) from by
          simp [collapseUnderscoreRuns, hcd]]
        refine List.chain'_cons'.2 ⟨?_, ih⟩
        intro y hy
        rw [collapseUnderscoreRuns_head t d] at hy
        cases hy
        intro hc
        exact hcd ⟨hc.1, hc.2⟩

/-- `List.dropWhile` preserves the no-adjacent-pair property. -/
theorem chain_dropWhile (R : Char → Char → Prop) (p : Char → Bool) :
    ∀ (l : List Char), l.Chain' R → (l.dropWhile p).Chain' R := by
  intro l
  induction l with
  | nil => intro h; simp
  | cons c t ih =>
    intro h
    rw [List.dropWhile_cons]
    by_cases hp : p c
    · simp only [hp, if_true]
      exact ih (List.chain'_cons'.1 h).2
    · simp only [hp, if_false]
      exact h

/-- `List.reverse` preserves `noDoubleUnderscore` chains (the relation is
symmetric). -/
theorem chain_reverse_noDouble (l : List Char) (h : l.Chain' noDoubleUnderscore) :
    l.reverse.Chain' noDoubleUnderscore := by
  rw [List.chain'_reverse]
  exact h.imp (fun a b hab hba => hab ⟨hba.2, hba.1⟩)

/-- The head of `dropWhile p l` does not satisfy `p`. -/
theorem dropWhile_head_not (p : Char → Bool) :
    ∀ (l : List Char) (a : Char), (l.dropWhile p).head? = some a → p a = false := by
  intro l
  induction l with
  | nil => intro a h; simp at h
  | cons c t ih =>
    intro a h
    rw [List.dropWhile_cons] at h
    by_cases hp : p c
    · rw [if_pos hp] at h
      exact ih a h
    · rw [if_neg hp] at h
      simp only [List.head?_cons, Option.some.injEq] at h
      rw [← h]
      exact Bool.eq_false_iff.2 hp

/-- When `dropWhile` returns a non-empty list its last element is the last
element of the original list. -/
theorem dropWhile_getLast (p : Char → Bool) :
    ∀ (l : List Char), l.dropWhile p ≠ [] → (l.dropWhile p).getLast? = l.getLast? := by
  intro l
  induction l with
  | nil => intro h; simp at h
  | cons c t ih =>
    intro h
    rw [List.dropWhile_cons] at h ⊢
    by_cases hp : p c
    · rw [if_pos hp] at h ⊢
      have ht : t ≠ [] := by
        intro he
        rw [he] at h
        simp at h
      rw [ih h]
      cases t with
      | nil => exact absurd rfl ht
      | cons x t2 => rw [List.getLast?_cons_cons]
    · rw [if_neg hp]

/-- `stripEdgeUnderscores` never leaves an underscore at either end. -/
theorem stripEdgeUnderscores_edges (l : List Char) :
    (stripEdgeUnderscores l).head? ≠ some '_' ∧
      (stripEdgeUnderscores l).getLast? ≠ some '_' := by
  unfold stripEdgeUnderscores
  set m := l.dropWhile isUnderscore with hm
  set r := m.reverse.dropWhile isUnderscore with hr
  constructor
  · rw [List.head?_reverse]
    by_cases hrn : r = []
    · simp [hrn]
    · rw [dropWhile_getLast isUnderscore m.reverse hrn, List.getLast?_reverse]
      intro hcon
      have := dropWhile_head_not isUnderscore l '_' hcon
      simp [isUnderscore] at this
  · rw [List.getLast?_reverse]
    intro hcon
    have := dropWhile_head_not isUnderscore m.reverse '_' hcon
    simp [isUnderscore] at this

/-- Membership is preserved backwards through `stripEdgeUnderscores`. -/
theorem mem_stripEdgeUnderscores (l : List Char) (x : Char)
    (h : x ∈ stripEdgeUnderscores l) : x ∈ l := by
  unfold stripEdgeUnderscores at h
  rw [List.mem_reverse] at h
  have h1 := (List.dropWhile_sublist isUnderscore).mem h
  rw [List.mem_reverse] at h1
  exact (List.dropWhile_sublist isUnderscore).mem h1

/-- Every character of `slugNormalize` is a lowercase letter, a digit, or an
underscore. -/
theorem slugNormalize_chars (s : String) :
    ∀ c ∈ slugNormalize s, isSlugChar c = true ∨ c = '_' := by
  intro c hc
  unfold slugNormalize at hc
  have h1 := mem_stripEdgeUnderscores _ c hc
  have h2 := mem_collapseUnderscoreRuns _ c h1
  have h3 := mem_collapseUnderscoreRuns _ c h2
  rcases List.mem_map.1 h3 with ⟨d, _, hd⟩
  by_cases hslug : isSlugChar d
  · left; rw [← hd]; simp [hslug]
  · right; rw [← hd]; simp [hslug]

/-- The normalized slug has no two consecutive underscores. -/
theorem slugNormalize_chain (s : String) :
    (slugNormalize s).Chain' noDoubleUnderscore := by
  unfold slugNormalize stripEdgeUnderscores
  apply chain_reverse_noDouble
  apply chain_dropWhile
  apply chain_reverse_noDouble
  apply chain_dropWhile
  exact collapseUnderscoreRuns_chain _

/-- The normalized slug has no underscore at either end. -/
theorem slugNormalize_edges (s : String) :
    (slugNormalize s).head? ≠ some '_' ∧ (slugNormalize s).getLast? ≠ some '_' :=
  stripEdgeUnderscores_edges _

/-- Claim C9: for every input string, `slugifyProjectName` returns a
non-empty string of at most 60 characters drawn from lowercase letters,
digits and underscores; the normalized form (before the 60-character
truncation) has no leading or trailing underscore and no two consecutive
underscores; and an input that normalizes to the empty string yields the
fixed slug `"cover_project"`. -/
theorem slugifyProjectName_shape (s : String) :
    slugifyProjectName s ≠ "" ∧
      (slugifyProjectName s).length ≤ 60 ∧
      (∀ c ∈ (slugifyProjectName s).data, isSlugChar c = true ∨ c = '_') ∧
      (slugNormalize s).head? ≠ some '_' ∧
      (slugNormalize s).getLast? ≠ some '_' ∧
      (slugNormalize s).Chain' noDoubleUnderscore ∧
      (slugNormalize s = [] → slugifyProjectName s = "cover_project") := by
  unfold slugifyProjectName
  by_cases hlen : (slugNormalize s).length = 0
  · rw [if_pos hlen]
    exact ⟨by decide, by decide, by decide, (slugNormalize_edges s).1,
      (slugNormalize_edges s).2, slugNormalize_chain s, fun _ => rfl⟩
  · rw [if_neg hlen]
    have hne : slugNormalize s ≠ [] := fun h => hlen (by rw [h]; rfl)
    refine ⟨?_, ?_, ?_, (slugNormalize_edges s).1, (slugNormalize_edges s).2,
      slugNormalize_chain s, fun h => absurd h hne⟩
    · intro h
      have hdata : ((slugNormalize s).take 60) = ([] : List Char) := congrArg String.data h
      rcases List.take_eq_nil_iff.1 hdata with h60 | hnil
      · exact absurd h60 (by decide)
      · exact hne hnil
    · show ((slugNormalize s).take 60).length ≤ 60
      rw [List.length_take]
      exact min_le_left _ _
    · intro c hc
      exact slugNormalize_chars s c ((List.take_sublist 60 _).mem hc)

/-- Witness for claim C9: an input that normalizes to the empty string
yields the fixed slug. -/
theorem slugifyProjectName_shape_witness :
    slugifyProjectName "  !!  " = "cover_project" :=
  (slugifyProjectName_shape "  !!  ").2.2.2.2.2.2 (by decide)

example : base64EncodeStr [77, 97, 110] = "TWFu" := by decide

example : strStartsWith "__macosx/foo" "__macosx/" = true := by decide

example : strStartsWith "._hidden" "._" = true := by decide

example : getFileExtension "Cover.PNG" = some "png" := by decide

example : getFileExtension "archive." = none := by decide

example : getFileExtension "readme" = none := by decide

example : pathSegments "root\\alpha\\x.png" = ["root", "alpha", "x.png"] := by decide

example :
    classifyEntry ⟨"alpha/y.png", false, [1]⟩ =
      some ⟨"alpha", "alpha", "y.png", "image/png", [1]⟩ := by decide

example :
    classifyEntry ⟨"root/alpha/x.png", false, [1]⟩ =
      some ⟨"alpha", "alpha", "x.png", "image/png", [1]⟩ := by decide

example : classifyEntry ⟨"alpha/notes.txt", false, [1]⟩ = none := by decide

example : classifyEntry ⟨"x.png", false, [1]⟩ = none := by decide

/-! ## Grouping invariants -/

/-- Inserting one input preserves the per-project image cap. -/
theorem insertIntoGroups_cap (slug name : String) (input : GenerationImageInput) :
    ∀ (groups : List (String × ProjectGroup)),
      (∀ kg ∈ groups, kg.2.inputs.length ≤ MAX_IMAGES_PER_PROJECT) →
      ∀ kg ∈ insertIntoGroups slug name input groups,
        kg.2.inputs.length ≤ MAX_IMAGES_PER_PROJECT := by
  intro groups
  induction groups with
  | nil =>
    intro _ kg hkg
    simp only [insertIntoGroups, List.mem_singleton] at hkg
    rw [hkg]
    simp [MAX_IMAGES_PER_PROJECT]
  | cons hd rest ih =>
    intro hinv kg hkg
    obtain ⟨k, g⟩ := hd
    by_cases hk : k = slug
    · by_cases hcap : MAX_IMAGES_PER_PROJECT ≤ g.inputs.length
      · rw [show insertIntoGroups slug name input ((k, g) :: rest) = (k, g) :: rest from by
          simp [insertIntoGroups, hk, hcap]] at hkg
        exact hinv kg hkg
      · rw [show insertIntoGroups slug name input ((k, g) :: rest) =
            (k, { g with inputs := g.inputs ++ [input] }) :: rest from by
          simp [insertIntoGroups, hk, hcap]] at hkg
        rcases List.mem_cons.1 hkg with h1 | h2
        · rw [h1]
          simp only [List.length_append, List.length_singleton]
          omega
        · exact hinv kg (List.mem_cons_of_mem _ h2)
    · rw [show insertIntoGroups slug name input ((k, g) :: rest) =
          (k, g) :: insertIntoGroups slug name input rest from by
        simp [insertIntoGroups, hk]] at hkg
      rcases List.mem_cons.1 hkg with h1 | h2
      · rw [h1]
        exact hinv (k, g) (List.mem_cons_self _ _)
      · exact ih (fun kg2 hkg2 => hinv kg2 (List.mem_cons_of_mem _ hkg2)) kg h2

/-- One loop iteration preserves the per-project image cap. -/
theorem processEntry_cap (u : String) (e : ZipEntry)
    (groups : List (String × ProjectGroup))
    (h : ∀ kg ∈ groups, kg.2.inputs.length ≤ MAX_IMAGES_PER_PROJECT) :
    ∀ kg ∈ processEntry u groups e, kg.2.inputs.length ≤ MAX_IMAGES_PER_PROJECT := by
  unfold processEntry
  cases hc : classifyEntry e with
  | none => exact h
  | some a => exact insertIntoGroups_cap a.slug a.projectName (buildInput u a) groups h

/-- The whole extraction loop preserves the per-project image cap. -/
theorem extractFrom_cap (uuid : Nat → String) :
    ∀ (entries : List ZipEntry) (i : Nat) (groups : List (String × ProjectGroup)),
      (∀ kg ∈ groups, kg.2.inputs.length ≤ MAX_IMAGES_PER_PROJECT) →
      ∀ kg ∈ extractFrom uuid i groups entries,
        kg.2.inputs.length ≤ MAX_IMAGES_PER_PROJECT := by
  intro entries
  induction entries with
  | nil => intro i groups h; exact h
  | cons e rest ih =>
    intro i groups h
    exact ih (i + 1) (processEntry (uuid i) groups e) (processEntry_cap (uuid i) e groups h)

/-- A full group swallows further inputs without changing the map. -/
theorem insertIntoGroups_full (slug name : String) (input : GenerationImageInput) :
    ∀ (groups : List (String × ProjectGroup)) (g : ProjectGroup),
      lookupGroup slug groups = some g →
      MAX_IMAGES_PER_PROJECT ≤ g.inputs.length →
      insertIntoGroups slug name input groups = groups := by
  intro groups
  induction groups with
  | nil => intro g hg; simp [lookupGroup] at hg
  | cons hd rest ih =>
    intro g hg hcap
    obtain ⟨k, g0⟩ := hd
    by_cases hk : k = slug
    · rw [show lookupGroup slug ((k, g0) :: rest) = some g0 from by
        simp [lookupGroup, hk]] at hg
      cases hg
      simp [insertIntoGroups, hk, hcap]
    · rw [show lookupGroup slug ((k, g0) :: rest) = lookupGroup slug rest from by
        simp [lookupGroup, hk]] at hg
      rw [show insertIntoGroups slug name input ((k, g0) :: rest) =
          (k, g0) :: insertIntoGroups slug name input rest from by
        simp [insertIntoGroups, hk]]
      rw [ih g hg hcap]

/-- Claim C2: every project group produced by `extractArchiveProjects` holds
at most `MAX_IMAGES_PER_PROJECT` (3) images, and once a group is full every
further entry that maps to it leaves the group map unchanged rather than
raising an error. -/
theorem extract_archive_project_cap :
    (∀ (uuid : Nat → String) (entries : List ZipEntry),
      ∀ kg ∈ extractArchiveProjects uuid entries,
        kg.2.inputs.length ≤ MAX_IMAGES_PER_PROJECT) ∧
    (∀ (slug name : String) (input : GenerationImageInput)
        (groups : List (String × ProjectGroup)) (g : ProjectGroup),
      lookupGroup slug groups = some g →
      MAX_IMAGES_PER_PROJECT ≤ g.inputs.length →
      insertIntoGroups slug name input groups = groups) := by
  constructor
  · intro uuid entries
    exact extractFrom_cap uuid entries 0 [] (by intro kg hkg; simp at hkg)
  · intro slug name input groups g hg hcap
    exact insertIntoGroups_full slug name input groups g hg hcap

/-- Witness for claim C2: a group already holding three images rejects a
fourth without changing the map. -/
theorem extract_archive_project_cap_witness :
    insertIntoGroups "p" "p" witImage [("p", ⟨"p", "p", [witImage, witImage, witImage]⟩)] =
      [("p", ⟨"p", "p", [witImage, witImage, witImage]⟩)] :=
  extract_archive_project_cap.2 "p" "p" witImage
    [("p", ⟨"p", "p", [witImage, witImage, witImage]⟩)]
    ⟨"p", "p", [witImage, witImage, witImage]⟩ (by decide) (by decide)

/-! ## Classification lemmas (claims C5 and C10) -/

/-- Inversion of `resolveEntryPath`: what must be true of an entry whose
path stage succeeds. -/
theorem resolveEntryPath_spec (e : ZipEntry) (slug pn rel : String)
    (h : resolveEntryPath e = some (slug, pn, rel)) :
    e.dir = false ∧
      strStartsWith (jsToLower e.name) "__macosx/" = false ∧
      (∃ seg, resolveProjectSegment (pathSegments e.name) = some seg ∧
        pn = String.mk (jsTrim seg.data) ∧ pn ≠ "" ∧ slug = slugifyProjectName pn) ∧
      rel = entryRelativeName e ∧
      entryFileSegments e ≠ [] ∧ rel ≠ "" ∧ strStartsWith rel "._" = false := by
  unfold resolveEntryPath at h
  by_cases hdir : e.dir = true
  · rw [if_pos hdir] at h; exact absurd h (by simp)
  rw [if_neg hdir] at h
  by_cases hmac : strStartsWith (jsToLower e.name) "__macosx/" = true
  · rw [if_pos hmac] at h; exact absurd h (by simp)
  rw [if_neg hmac] at h
  cases hseg : resolveProjectSegment (pathSegments e.name) with
  | none => rw [hseg] at h; exact absurd h (by simp)
  | some seg =>
    rw [hseg] at h
    simp only [] at h
    by_cases h1 : String.mk (jsTrim seg.data) = ""
    · rw [if_pos h1] at h; exact absurd h (by simp)
    rw [if_neg h1] at h
    by_cases h2 : slugifyProjectName (String.mk (jsTrim seg.data)) = ""
    · rw [if_pos h2] at h; exact absurd h (by simp)
    rw [if_neg h2] at h
    by_cases h3 : entryFileSegments e = []
    · rw [if_pos h3] at h; exact absurd h (by simp)
    rw [if_neg h3] at h
    by_cases h4 : entryRelativeName e = ""
    · rw [if_pos h4] at h; exact absurd h (by simp)
    rw [if_neg h4] at h
    by_cases h5 : strStartsWith (entryRelativeName e) "._" = true
    · rw [if_pos h5] at h; exact absurd h (by simp)
    rw [if_neg h5] at h
    simp only [Option.some.injEq, Prod.mk.injEq] at h
    obtain ⟨hs, hp, hr⟩ := h
    refine ⟨Bool.eq_false_iff.2 hdir, Bool.eq_false_iff.2 hmac,
      ⟨seg, rfl, hp.symm, ?_, ?_⟩, hr.symm, h3, ?_, ?_⟩
    · rw [← hp]; exact h1
    · rw [← hs, ← hp]
    · rw [← hr]; exact h4
    · rw [← hr]; exact Bool.eq_false_iff.2 h5

/-- Inversion of `classifyEntry`: what must be true of an accepted entry. -/
theorem classifyEntry_spec (e : ZipEntry) (a : AcceptedEntry)
    (h : classifyEntry e = some a) :
    resolveEntryPath e = some (a.slug, a.projectName, a.relativeName) ∧
      (∃ ext, getFileExtension a.relativeName = some ext ∧
        EXTENSION_TO_MIME ext = some a.mimeType) ∧
      ACCEPTED_IMAGE_TYPES.contains a.mimeType = true ∧
      a.bytes = e.data ∧ e.data.length ≠ 0 := by
  unfold classifyEntry at h
  cases hres : resolveEntryPath e with
  | none => rw [hres] at h; exact absurd h (by simp)
  | some triple =>
    obtain ⟨slug, pn, rel⟩ := triple
    rw [hres] at h
    simp only [] at h
    cases hext : getFileExtension rel with
    | none => rw [hext] at h; exact absurd h (by simp)
    | some ext =>
      rw [hext] at h
      simp only [] at h
      cases hmime : EXTENSION_TO_MIME ext with
      | none => rw [hmime] at h; exact absurd h (by simp)
      | some mime =>
        rw [hmime] at h
        simp only [] at h
        by_cases hacc : ACCEPTED_IMAGE_TYPES.contains mime = false
        · rw [if_pos hacc] at h; exact absurd h (by simp)
        rw [if_neg hacc] at h
        by_cases hdata : e.data.length = 0
        · rw [if_pos hdata] at h; exact absurd h (by simp)
        rw [if_neg hdata] at h
        simp only [Option.some.injEq] at h
        rw [← h]
        exact ⟨rfl, ⟨ext, hext, hmime⟩, by simpa using hacc, rfl, hdata⟩

/-- Inversion of the extension-to-MIME table. -/
theorem EXTENSION_TO_MIME_spec (ext m : String) (h : EXTENSION_TO_MIME ext = some m) :
    (ext = "png" ∨ ext = "jpg" ∨ ext = "jpeg" ∨ ext = "webp") ∧
      (m = "image/png" ∨ m = "image/jpeg" ∨ m = "image/webp") := by
  unfold EXTENSION_TO_MIME at h
  by_cases h1 : ext = "png"
  · rw [if_pos h1] at h
    cases h
    exact ⟨Or.inl h1, Or.inl rfl⟩
  rw [if_neg h1] at h
  by_cases h2 : ext = "jpg"
  · rw [if_pos h2] at h
    cases h
    exact ⟨Or.inr (Or.inl h2), Or.inr (Or.inl rfl)⟩
  rw [if_neg h2] at h
  by_cases h3 : ext = "jpeg"
  · rw [if_pos h3] at h
    cases h
    exact ⟨Or.inr (Or.inr (Or.inl h3)), Or.inr (Or.inl rfl)⟩
  rw [if_neg h3] at h
  by_cases h4 : ext = "webp"
  · rw [if_pos h4] at h
    cases h
    exact ⟨Or.inr (Or.inr (Or.inr h4)), Or.inr (Or.inr rfl)⟩
  rw [if_neg h4] at h
  exact absurd h (by simp)

/-- Claim C10: directory entries, entries under the archive's `__MACOSX/`
folder (case-insensitive), entries whose in-project relative name starts
with `._`, and entries that decompress to zero bytes are all skipped by the
extraction loop and contribute nothing to any project group. -/
theorem metadata_entries_skipped (uuid : String) (groups : List (String × ProjectGroup))
    (e : ZipEntry) :
    (e.dir = true → processEntry uuid groups e = groups) ∧
      (strStartsWith (jsToLower e.name) "__macosx/" = true →
        processEntry uuid groups e = groups) ∧
      (strStartsWith (entryRelativeName e) "._" = true →
        processEntry uuid groups e = groups) ∧
      (e.data = [] → processEntry uuid groups e = groups) := by
  have hskip : classifyEntry e = none → processEntry uuid groups e = groups := by
    intro hc
    unfold processEntry
    rw [hc]
  refine ⟨?_, ?_, ?_, ?_⟩
  · intro hdir
    apply hskip
    unfold classifyEntry resolveEntryPath
    rw [if_pos hdir]
  · intro hmac
    apply hskip
    unfold classifyEntry resolveEntryPath
    by_cases hdir : e.dir = true
    · rw [if_pos hdir]
    · rw [if_neg hdir, if_pos hmac]
  · intro hrel
    cases hc : classifyEntry e with
    | none => exact hskip hc
    | some a =>
      exfalso
      have hs := classifyEntry_spec e a hc
      have hps := resolveEntryPath_spec e a.slug a.projectName a.relativeName hs.1
      rw [← hps.2.2.2.1] at hrel
      rw [hps.2.2.2.2.2.2] at hrel
      exact Bool.false_ne_true hrel
  · intro hdata
    cases hc : classifyEntry e with
    | none => exact hskip hc
    | some a =>
      exfalso
      have hs := classifyEntry_spec e a hc
      apply hs.2.2.2.2
      rw [hdata]
      rfl

/-- Witness for claim C10: a directory entry leaves the group map
unchanged. -/
theorem metadata_entries_skipped_witness :
    processEntry "u" [] ⟨"alpha/", true, [1]⟩ = [] :=
  (metadata_entries_skipped "u" [] ⟨"alpha/", true, [1]⟩).1 rfl

/-- Claim C5: an entry is imported only when its file-name extension is
`png`, `jpg`, `jpeg` or `webp`; the accepted image's recorded MIME type is
the one the `EXTENSION_TO_MIME` table derives from that extension
(`image/png`, `image/jpeg` or `image/webp`), unchanged by the input
construction; and an entry whose relative name has no extension or an
extension outside the table is skipped. -/
theorem mime_allowlist :
    (∀ (e : ZipEntry) (a : AcceptedEntry), classifyEntry e = some a →
      ∃ ext, getFileExtension a.relativeName = some ext ∧
        (ext = "png" ∨ ext = "jpg" ∨ ext = "jpeg" ∨ ext = "webp") ∧
        EXTENSION_TO_MIME ext = some a.mimeType ∧
        (a.mimeType = "image/png" ∨ a.mimeType = "image/jpeg" ∨
          a.mimeType = "image/webp") ∧
        (∀ u, (buildInput u a).mimeType = a.mimeType)) ∧
    (∀ (e : ZipEntry) (slug pn rel uuid : String)
        (groups : List (String × ProjectGroup)),
      resolveEntryPath e = some (slug, pn, rel) →
      (match getFileExtension rel with
        | none => True
        | some ext => EXTENSION_TO_MIME ext = none) →
      processEntry uuid groups e = groups) := by
  constructor
  · intro e a hc
    have hs := classifyEntry_spec e a hc
    obtain ⟨ext, hext, hmime⟩ := hs.2.1
    have hspec := EXTENSION_TO_MIME_spec ext a.mimeType hmime
    exact ⟨ext, hext, hspec.1, hmime, hspec.2, fun u => rfl⟩
  · intro e slug pn rel uuid groups hres hbad
    have hcn : classifyEntry e = none := by
      unfold classifyEntry
      rw [hres]
      simp only []
      cases hext : getFileExtension rel with
      | none => rfl
      | some ext =>
        rw [hext] at hbad
        simp only [] at hbad
        simp only []
        rw [hbad]
    unfold processEntry
    rw [hcn]

/-- Witness for claim C5: a `.txt` entry under a project folder is
skipped. -/
theorem mime_allowlist_witness :
    processEntry "u" [] ⟨"proj/readme.txt", false, [1]⟩ = [] :=
  mime_allowlist.2 ⟨"proj/readme.txt", false, [1]⟩ "proj" "proj" "readme.txt" "u" []
    (by decide) (show EXTENSION_TO_MIME "txt" = none by decide)

/-! ## Grouping by resolved project segment (claim C1) -/

/-- A list whose head does not satisfy `p` is unchanged by `dropWhile p`. -/
theorem dropWhile_eq_self_of_head (p : Char → Bool) (l : List Char)
    (h : ∀ a, l.head? = some a → p a = false) : l.dropWhile p = l := by
  cases l with
  | nil => rfl
  | cons c t =>
    rw [List.dropWhile_cons, if_neg]
    rw [h c rfl]
    simp

/-- JavaScript `trim` is idempotent. -/
theorem jsTrim_idem (l : List Char) : jsTrim (jsTrim l) = jsTrim l := by
  unfold jsTrim
  set A := l.dropWhile Char.isWhitespace with hA
  set B := A.reverse.dropWhile Char.isWhitespace with hB
  have h1 : B.reverse.dropWhile Char.isWhitespace = B.reverse := by
    apply dropWhile_eq_self_of_head
    intro a ha
    rw [List.head?_reverse] at ha
    have hne : A.reverse.dropWhile Char.isWhitespace ≠ [] := by
      intro hnil
      rw [hB, hnil] at ha
      simp at ha
    rw [hB, dropWhile_getLast _ _ hne, List.getLast?_reverse, hA] at ha
    exact dropWhile_head_not _ _ _ ha
  rw [h1, List.reverse_reverse]
  have h2 : B.dropWhile Char.isWhitespace = B := by
    apply dropWhile_eq_self_of_head
    intro a ha
    rw [hB] at ha
    exact dropWhile_head_not _ _ _ ha
  rw [h2]

/-- Slugification ignores leading and trailing whitespace, so the slug of
the trimmed project name equals the slug of the raw segment. -/
theorem slugifyProjectName_trim (s : String) :
    slugifyProjectName (String.mk (jsTrim s.data)) = slugifyProjectName s := by
  unfold slugifyProjectName slugNormalize
  rw [show (String.mk (jsTrim s.data)).data = jsTrim s.data from rfl, jsTrim_idem]

/-- Inserting under one slug leaves every other slug's bucket unchanged. -/
theorem lookupGroup_insert_other (slug name : String) (input : GenerationImageInput)
    (k : String) (hk : k ≠ slug) :
    ∀ (groups : List (String × ProjectGroup)),
      lookupGroup k (insertIntoGroups slug name input groups) = lookupGroup k groups := by
  intro groups
  induction groups with
  | nil =>
    simp only [insertIntoGroups, lookupGroup]
    rw [if_neg (Ne.symm hk)]
  | cons hd rest ih =>
    obtain ⟨k0, g0⟩ := hd
    by_cases h0 : k0 = slug
    · subst h0
      by_cases hcap : MAX_IMAGES_PER_PROJECT ≤ g0.inputs.length
      · rw [show insertIntoGroups k0 name input ((k0, g0) :: rest) = (k0, g0) :: rest from by
          simp [insertIntoGroups, hcap]]
      · rw [show insertIntoGroups k0 name input ((k0, g0) :: rest) =
            (k0, { g0 with inputs := g0.inputs ++ [input] }) :: rest from by
          simp [insertIntoGroups, hcap]]
        simp only [lookupGroup]
        rw [if_neg (Ne.symm hk), if_neg (Ne.symm hk)]
    · rw [show insertIntoGroups slug name input ((k0, g0) :: rest) =
          (k0, g0) :: insertIntoGroups slug name input rest from by
        simp [insertIntoGroups, h0]]
      simp only [lookupGroup]
      by_cases hk0 : k0 = k
      · rw [if_pos hk0, if_pos hk0]
      · rw [if_neg hk0, if_neg hk0]
        exact ih

/-- The bucket keyed by the inserted slug receives the input (or is left
alone when it is already full, or is created when missing). -/
theorem lookupGroup_insert_self (slug name : String) (input : GenerationImageInput) :
    ∀ (groups : List (String × ProjectGroup)),
      lookupGroup slug (insertIntoGroups slug name input groups) =
        (match lookupGroup slug groups with
          | none => some ⟨slug, name, [input]⟩
          | some g =>
            if MAX_IMAGES_PER_PROJECT ≤ g.inputs.length then some g
            else some { g with inputs := g.inputs ++ [input] }) := by
  intro groups
  induction groups with
  | nil => simp [insertIntoGroups, lookupGroup]
  | cons hd rest ih =>
    obtain ⟨k0, g0⟩ := hd
    by_cases h0 : k0 = slug
    · subst h0
      by_cases hcap : MAX_IMAGES_PER_PROJECT ≤ g0.inputs.length
      · rw [show insertIntoGroups k0 name input ((k0, g0) :: rest) = (k0, g0) :: rest from by
          simp [insertIntoGroups, hcap]]
        simp [lookupGroup, hcap]
      · rw [show insertIntoGroups k0 name input ((k0, g0) :: rest) =
            (k0, { g0 with inputs := g0.inputs ++ [input] }) :: rest from by
          simp [insertIntoGroups, hcap]]
        simp [lookupGroup, hcap]
    · rw [show insertIntoGroups slug name input ((k0, g0) :: rest) =
          (k0, g0) :: insertIntoGroups slug name input rest from by
        simp [insertIntoGroups, h0]]
      simp only [lookupGroup]
      rw [if_neg h0, if_neg h0]
      exact ih

/-- Counterexample to claim C1 as stated: the entries `root/alpha/x.png`
and `alpha/y.png` end up in the same (single) project group, although their
first path segments (`root` and `alpha`) slugify to different values — the
importer's `root` special case keys the first entry by its second segment. -/
theorem grouping_first_segment_counterexample :
    ((extractArchiveProjects natName [ceRootEntry, cePlainEntry]).map Prod.fst =
      ["alpha"]) ∧
      ((lookupGroup "alpha" (extractArchiveProjects natName [ceRootEntry, cePlainEntry])).map
        (fun g => g.inputs.length) = some 2) ∧
      slugifyProjectName (firstPathSegment ceRootEntry) ≠
        slugifyProjectName (firstPathSegment cePlainEntry) :=
  ⟨by decide, by decide, by decide⟩

/-- Claim C1 (amended): each accepted entry is bucketed under the slug of
its resolved project segment — the first path segment after backslash
normalization, except that a first segment equal to `root`
(case-insensitive) defers to the second segment — so two accepted entries
share a project group exactly when their resolved segments slugify to the
same value; an entry with no resolvable segment or a project name that
trims to the empty string is skipped; and an accepted entry changes no
bucket other than its own slug's. -/
theorem grouping_by_resolved_segment :
    (∀ (e : ZipEntry) (a : AcceptedEntry), classifyEntry e = some a →
      ∃ seg, resolveProjectSegment (pathSegments e.name) = some seg ∧
        a.slug = slugifyProjectName seg) ∧
      (∀ (e : ZipEntry) (uuid : String) (groups : List (String × ProjectGroup)),
        resolveProjectSegment (pathSegments e.name) = none →
        processEntry uuid groups e = groups) ∧
      (∀ (e : ZipEntry) (seg uuid : String) (groups : List (String × ProjectGroup)),
        resolveProjectSegment (pathSegments e.name) = some seg →
        String.mk (jsTrim seg.data) = "" →
        processEntry uuid groups e = groups) ∧
      (∀ (uuid : String) (groups : List (String × ProjectGroup)) (e : ZipEntry)
          (a : AcceptedEntry) (k : String), classifyEntry e = some a → k ≠ a.slug →
        lookupGroup k (processEntry uuid groups e) = lookupGroup k groups) ∧
      (∀ (uuid : String) (groups : List (String × ProjectGroup)) (e : ZipEntry)
          (a : AcceptedEntry), classifyEntry e = some a →
        lookupGroup a.slug (processEntry uuid groups e) =
          (match lookupGroup a.slug groups with
            | none => some ⟨a.slug, a.projectName, [buildInput uuid a]⟩
            | some g =>
              if MAX_IMAGES_PER_PROJECT ≤ g.inputs.length then some g
              else some { g with inputs := g.inputs ++ [buildInput uuid a] })) := by
  refine ⟨?_, ?_, ?_, ?_, ?_⟩
  · intro e a hc
    have hs := classifyEntry_spec e a hc
    obtain ⟨_, _, ⟨seg, hseg, hpn, _, hslug⟩, _⟩ :=
      resolveEntryPath_spec e a.slug a.projectName a.relativeName hs.1
    refine ⟨seg, hseg, ?_⟩
    rw [hslug, hpn, slugifyProjectName_trim]
  · intro e uuid groups hseg
    have hcn : classifyEntry e = none := by
      unfold classifyEntry resolveEntryPath
      by_cases hdir : e.dir = true
      · rw [if_pos hdir]
      rw [if_neg hdir]
      by_cases hmac : strStartsWith (jsToLower e.name) "__macosx/" = true
      · rw [if_pos hmac]
      rw [if_neg hmac, hseg]
    unfold processEntry
    rw [hcn]
  · intro e seg uuid groups hseg hname
    have hcn : classifyEntry e = none := by
      unfold classifyEntry resolveEntryPath
      by_cases hdir : e.dir = true
      · rw [if_pos hdir]
      rw [if_neg hdir]
      by_cases hmac : strStartsWith (jsToLower e.name) "__macosx/" = true
      · rw [if_pos hmac]
      rw [if_neg hmac, hseg]
      simp only []
      rw [if_pos hname]
    unfold processEntry
    rw [hcn]
  · intro uuid groups e a k hc hk
    unfold processEntry
    rw [hc]
    exact lookupGroup_insert_other a.slug a.projectName (buildInput uuid a) k hk groups
  · intro uuid groups e a hc
    unfold processEntry
    rw [hc]
    exact lookupGroup_insert_self a.slug a.projectName (buildInput uuid a) groups

/-- Witness for claim C1 (amended): processing `alpha/y.png` against the
empty map creates the bucket keyed `alpha` with the single built input. -/
theorem grouping_by_resolved_segment_witness :
    lookupGroup "alpha" (processEntry "u" [] cePlainEntry) =
      some ⟨"alpha", "alpha", [buildInput "u" ⟨"alpha", "alpha", "y.png", "image/png", [1]⟩]⟩ := by
  have h := grouping_by_resolved_segment.2.2.2.2 "u" [] cePlainEntry
    ⟨"alpha", "alpha", "y.png", "image/png", [1]⟩ (by decide)
  rw [h]
  rfl

/-- Claim C3: a new `CoverVersion` is numbered `latestVersionNumber + 1` of
the owning project as read at the start of the transaction (0 for a project
the batch importer just created, so its first version is 1, and 1 directly
for a project the save handler just created), and the project's
`latestVersionNumber` is set to that same number in the same transaction
body.  This covers both the batch importer and the library save handler. -/
theorem version_numbering_sequential :
    (∀ (userId : String) (group : ProjectGroup) (srcUrls : List (Option String)) (db : Db),
      ∃ v : CoverVersion,
        (batchUploadBody userId group srcUrls db).1.versions = db.versions ++ [v] ∧
        v.versionNumber =
          (match findProject userId group.slug db with
            | some p => p.latestVersionNumber
            | none => 0) + 1 ∧
        (batchUploadBody userId group srcUrls db).2.1.latestVersionNumber = v.versionNumber ∧
        (findProject userId group.slug db = none → v.versionNumber = 1)) ∧
    (∀ (userId slug name jobId url : String) (urls : List String) (db : Db),
      (saveCoverVersionBody userId slug name jobId url urls db).2.2.versionNumber =
        (match findProject userId slug db with
          | some p => p.latestVersionNumber + 1
          | none => 1) ∧
      (saveCoverVersionBody userId slug name jobId url urls db).2.1.latestVersionNumber =
        (saveCoverVersionBody userId slug name jobId url urls db).2.2.versionNumber) := by
  constructor
  · intro userId group srcUrls db
    cases hf : findProject userId group.slug db with
    | some p =>
      refine ⟨{ projectId := p.id, thumbnailJobId := none,
                  versionNumber := p.latestVersionNumber + 1,
                  label := p.slug ++ "_v" ++ Nat.repr (p.latestVersionNumber + 1),
                  selectedImageUrl := "", sourceImage1Url := srcUrls.getD 0 none,
                  sourceImage2Url := srcUrls.getD 1 none,
                  sourceImage3Url := srcUrls.getD 2 none,
                  generatedImageUrls := none }, ?_, rfl, ?_, ?_⟩
      · simp [batchUploadBody, hf]
      · simp [batchUploadBody, hf]
      · intro hn
        exact absurd hn (by simp)
    | none =>
      refine ⟨{ projectId := db.nextProjectId, thumbnailJobId := none,
                  versionNumber := 1, label := group.slug ++ "_v" ++ Nat.repr 1,
                  selectedImageUrl := "", sourceImage1Url := srcUrls.getD 0 none,
                  sourceImage2Url := srcUrls.getD 1 none,
                  sourceImage3Url := srcUrls.getD 2 none,
                  generatedImageUrls := none }, ?_, rfl, ?_, fun _ => rfl⟩
      · simp [batchUploadBody, hf]
      · simp [batchUploadBody, hf]
  · intro userId slug name jobId url urls db
    cases hf : findProject userId slug db with
    | some p => constructor <;> simp [saveCoverVersionBody, hf]
    | none => constructor <;> simp [saveCoverVersionBody, hf]

/-- Witness for claim C3: against the empty database the batch importer
creates version number 1. -/
theorem version_numbering_sequential_witness :
    ∃ v : CoverVersion,
      (batchUploadBody "u" ⟨"p", "p", [witImage]⟩ [some "url"] ⟨0, [], [], []⟩).1.versions =
          ([] : List CoverVersion) ++ [v] ∧
        v.versionNumber =
          (match findProject "u" "p" ⟨0, [], [], []⟩ with
            | some p => p.latestVersionNumber
            | none => 0) + 1 ∧
        (batchUploadBody "u" ⟨"p", "p", [witImage]⟩ [some "url"] ⟨0, [], [], []⟩).2.1.latestVersionNumber =
          v.versionNumber ∧
        (findProject "u" "p" ⟨0, [], [], []⟩ = none → v.versionNumber = 1) :=
  version_numbering_sequential.1 "u" ⟨"p", "p", [witImage]⟩ [some "url"] ⟨0, [], [], []⟩

/-- Claim C6: the project create/update and the version insert of one group
form a single transaction body: a rolled-back transaction leaves the
database exactly as it was (no version row and no project change persists),
and a committed one persists both the appended version row and the updated
project row (name, latestVersionNumber and library status fields). -/
theorem batch_transaction_atomic (userId : String) (group : ProjectGroup)
    (srcUrls : List (Option String)) (db : Db) :
    runTransaction true (batchUploadBody userId group srcUrls) db =
        Except.error "TransactionFailed" ∧
      runTransaction false (batchUploadBody userId group srcUrls) db =
        Except.ok (batchUploadBody userId group srcUrls db) ∧
      (∃ v : CoverVersion,
        (batchUploadBody userId group srcUrls db).1.versions = db.versions ++ [v] ∧
        ∃ p ∈ (batchUploadBody userId group srcUrls db).1.projects,
          p.userId = userId ∧ p.slug = group.slug ∧ p.name = group.name ∧
            p.latestVersionNumber = v.versionNumber ∧ p.librarySelected = true ∧
            p.libraryGenerationStatus = "WAITING") := by
  refine ⟨rfl, rfl, ?_⟩
  cases hf : findProject userId group.slug db with
  | some p =>
    have hp := List.find?_some hf
    rw [Bool.and_eq_true, beq_iff_eq, beq_iff_eq] at hp
    have hmem : p ∈ db.projects := List.mem_of_find?_eq_some hf
    refine ⟨{ projectId := p.id, thumbnailJobId := none,
                versionNumber := p.latestVersionNumber + 1,
                label := p.slug ++ "_v" ++ Nat.repr (p.latestVersionNumber + 1),
                selectedImageUrl := "", sourceImage1Url := srcUrls.getD 0 none,
                sourceImage2Url := srcUrls.getD 1 none,
                sourceImage3Url := srcUrls.getD 2 none,
                generatedImageUrls := none }, by simp [batchUploadBody, hf], ?_⟩
    refine ⟨{ p with
        name := group.name
        latestVersionNumber := p.latestVersionNumber + 1
        librarySelected := true
        libraryGenerationStatus := "WAITING"
        libraryGenerationJobId := none }, ?_, hp.1, hp.2, rfl, rfl, rfl, rfl⟩
    have hproj : (batchUploadBody userId group srcUrls db).1.projects =
        db.projects.map (fun q => if q.id = p.id then { p with
          name := group.name
          latestVersionNumber := p.latestVersionNumber + 1
          librarySelected := true
          libraryGenerationStatus := "WAITING"
          libraryGenerationJobId := none } else q) := by
      simp [batchUploadBody, hf]
    rw [hproj]
    have hin := List.mem_map_of_mem (fun q : CoverProject => if q.id = p.id then { p with
      name := group.name
      latestVersionNumber := p.latestVersionNumber + 1
      librarySelected := true
      libraryGenerationStatus := "WAITING"
      libraryGenerationJobId := none } else q) hmem
    simpa using hin
  | none =>
    refine ⟨{ projectId := db.nextProjectId, thumbnailJobId := none,
                versionNumber := 1, label := group.slug ++ "_v" ++ Nat.repr 1,
                selectedImageUrl := "", sourceImage1Url := srcUrls.getD 0 none,
                sourceImage2Url := srcUrls.getD 1 none,
                sourceImage3Url := srcUrls.getD 2 none,
                generatedImageUrls := none }, by simp [batchUploadBody, hf], ?_⟩
    refine ⟨{ id := db.nextProjectId
              userId := userId
              name := group.name
              slug := group.slug
              latestVersionNumber := 1
              librarySelected := true
              libraryGenerationStatus := "WAITING"
              libraryGenerationJobId := none },
      ?_, rfl, rfl, rfl, rfl, rfl, rfl⟩
    have hmem0 : ({ id := db.nextProjectId
                    userId := userId
                    name := group.name
                    slug := group.slug
                    latestVersionNumber := 0 } : CoverProject) ∈
        db.projects ++ [{ id := db.nextProjectId
                          userId := userId
                          name := group.name
                          slug := group.slug
                          latestVersionNumber := 0 }] := by
      simp
    have hproj : (batchUploadBody userId group srcUrls db).1.projects =
        (db.projects ++ [({ id := db.nextProjectId
                            userId := userId
                            name := group.name
                            slug := group.slug
                            latestVersionNumber := 0 } : CoverProject)]).map
          (fun q : CoverProject => if q.id = db.nextProjectId then
            { id := db.nextProjectId
              userId := userId
              name := group.name
              slug := group.slug
              latestVersionNumber := 1
              librarySelected := true
              libraryGenerationStatus := "WAITING"
              libraryGenerationJobId := none } else q) := by
      simp [batchUploadBody, hf]
    rw [hproj]
    exact List.mem_map.2 ⟨_, hmem0, by simp⟩

/-! ## File-count ceilings (claim C4) -/

/-- Claim C4: with zero accepted images the POST handler answers 400
`NoImages`, with more than `MAX_IMAGES_PER_ARCHIVE` (60) it answers 400
`TooManyImages`; in both cases the database is returned untouched and the
outcome is independent of the uploader, the transaction oracle and the
digest — no project, version or gallery row is created and no image is
uploaded. -/
theorem file_count_ceilings (hash : String → String)
    (upl : List GenerationImageInput → Except String (List GenerationImageInput))
    (txnFails : Nat → Bool) (uuid : Nat → String) (userId : String)
    (entries : List ZipEntry) (db : Db) :
    (archiveTotalImages uuid entries = 0 →
      batchUploadPOST hash upl txnFails uuid userId entries db =
        { status := 400, error := some "NoImages", db := db }) ∧
      (MAX_IMAGES_PER_ARCHIVE < archiveTotalImages uuid entries →
        batchUploadPOST hash upl txnFails uuid userId entries db =
          { status := 400, error := some "TooManyImages", db := db }) := by
  unfold archiveTotalImages
  constructor
  · intro h
    simp [batchUploadPOST, h]
  · intro h
    have h0 : ¬(((extractArchiveProjects uuid entries).map
        (fun kg => kg.2.inputs.length)).sum = 0) := by
      intro he
      rw [he] at h
      exact absurd h (by decide)
    simp [batchUploadPOST, h0, h]

/-- Witness for claim C4: the empty archive yields `NoImages`, and a
61-image archive yields `TooManyImages`, both leaving the database as it
was. -/
theorem file_count_ceilings_witness :
    batchUploadPOST idHash okUploader noFail natName "u" [] emptyDb =
        { status := 400, error := some "NoImages", db := emptyDb } ∧
      batchUploadPOST idHash okUploader noFail natName "u" bigArchive emptyDb =
        { status := 400, error := some "TooManyImages", db := emptyDb } :=
  ⟨(file_count_ceilings idHash okUploader noFail natName "u" [] emptyDb).1 (by decide),
    (file_count_ceilings idHash okUploader noFail natName "u" bigArchive emptyDb).2
      (by decide)⟩

/-! ## Catch-and-report failure policy (claim C7) -/

/-- Splitting the group loop at an arbitrary point: the tail runs against
the state left by the head, and a head error short-circuits. -/
theorem processGroups_append (hash : String → String)
    (upl : List GenerationImageInput → Except String (List GenerationImageInput))
    (txnFails : Nat → Bool) (userId : String) :
    ∀ (done more : List ProjectGroup) (i : Nat) (db : Db) (p c a : Nat),
      processGroups hash upl txnFails userId (done ++ more) i db p c a =
        (match processGroups hash upl txnFails userId done i db p c a with
          | Except.error e => Except.error e
          | Except.ok (db1, p1, c1, a1) =>
            processGroups hash upl txnFails userId more (i + done.length) db1 p1 c1 a1) := by
  intro done
  induction done with
  | nil =>
    intro more i db p c a
    simp [processGroups]
  | cons g rest ih =>
    intro more i db p c a
    rw [List.cons_append]
    by_cases hg : g.inputs.length = 0
    · rw [show processGroups hash upl txnFails userId (g :: (rest ++ more)) i db p c a =
          processGroups hash upl txnFails userId (rest ++ more) (i + 1) db p c a from by
        simp [processGroups, hg]]
      rw [show processGroups hash upl txnFails userId (g :: rest) i db p c a =
          processGroups hash upl txnFails userId rest (i + 1) db p c a from by
        simp [processGroups, hg]]
      rw [ih more (i + 1) db p c a]
      have hlen : i + 1 + rest.length = i + (g :: rest).length := by
        rw [List.length_cons]
        omega
      rw [hlen]
    · cases hs : stepGroup hash upl (txnFails i) userId g db with
      | error msg =>
        rw [show processGroups hash upl txnFails userId (g :: (rest ++ more)) i db p c a =
            Except.error (msg, db) from by simp [processGroups, hg, hs]]
        rw [show processGroups hash upl txnFails userId (g :: rest) i db p c a =
            Except.error (msg, db) from by simp [processGroups, hg, hs]]
      | ok res =>
        obtain ⟨db2, createdFlag, assetCount⟩ := res
        rw [show processGroups hash upl txnFails userId (g :: (rest ++ more)) i db p c a =
            processGroups hash upl txnFails userId (rest ++ more) (i + 1) db2 (p + 1)
              (c + if createdFlag then 1 else 0) (a + assetCount) from by
          simp [processGroups, hg, hs]]
        rw [show processGroups hash upl txnFails userId (g :: rest) i db p c a =
            processGroups hash upl txnFails userId rest (i + 1) db2 (p + 1)
              (c + if createdFlag then 1 else 0) (a + assetCount) from by
          simp [processGroups, hg, hs]]
        rw [ih more (i + 1) db2 (p + 1) (c + if createdFlag then 1 else 0) (a + assetCount)]
        have hlen : i + 1 + rest.length = i + (g :: rest).length := by
          rw [List.length_cons]
          omega
        rw [hlen]

/-- Claim C7: the only failure handling of the batch importer is a single
top-level catch reported as status 500 `BatchUploadFailed`, whose database
is the state left by the groups completed before the failing one: there is
no retry and no rollback of earlier groups, and the groups after the
failing one are never processed. -/
theorem batch_catch_and_report (hash : String → String)
    (upl : List GenerationImageInput → Except String (List GenerationImageInput))
    (txnFails : Nat → Bool) (uuid : Nat → String) (userId : String)
    (entries : List ZipEntry) (db : Db) (msg : String) (dbPartial : Db) :
    (0 < archiveTotalImages uuid entries →
      archiveTotalImages uuid entries ≤ MAX_IMAGES_PER_ARCHIVE →
      processGroups hash upl txnFails userId
          ((extractArchiveProjects uuid entries).map Prod.snd) 0 db 0 0 0 =
        Except.error (msg, dbPartial) →
      batchUploadPOST hash upl txnFails uuid userId entries db =
        { status := 500, error := some "BatchUploadFailed", db := dbPartial }) ∧
      (∀ (done rest : List ProjectGroup) (bad : ProjectGroup) (i : Nat)
          (db0 db1 : Db) (p c a p1 c1 a1 : Nat) (msg2 : String),
        processGroups hash upl txnFails userId done i db0 p c a =
          Except.ok (db1, p1, c1, a1) →
        bad.inputs.length ≠ 0 →
        stepGroup hash upl (txnFails (i + done.length)) userId bad db1 =
          Except.error msg2 →
        processGroups hash upl txnFails userId (done ++ bad :: rest) i db0 p c a =
          Except.error (msg2, db1)) := by
  constructor
  · intro h0 h60 hPG
    unfold archiveTotalImages at h0 h60
    have hne : ¬(((extractArchiveProjects uuid entries).map
        (fun kg => kg.2.inputs.length)).sum = 0) := by omega
    have hle : ¬(MAX_IMAGES_PER_ARCHIVE < ((extractArchiveProjects uuid entries).map
        (fun kg => kg.2.inputs.length)).sum) := by
      unfold MAX_IMAGES_PER_ARCHIVE at h60 ⊢
      omega
    simp [batchUploadPOST, hne, hle, hPG]
  · intro done rest bad i db0 db1 p c a p1 c1 a1 msg2 hok hbad hstep
    rw [processGroups_append hash upl txnFails userId done (bad :: rest) i db0 p c a]
    rw [hok]
    simp only []
    simp [processGroups, hbad, hstep]

/-- Witness for claim C7: a one-group archive whose upload fails produces
the 500 `BatchUploadFailed` outcome with the database untouched (no group
had completed before the failure). -/
theorem batch_catch_and_report_witness :
    batchUploadPOST idHash failUploader noFail natName "u"
        [⟨"alpha/y.png", false, [1]⟩] emptyDb =
      { status := 500, error := some "BatchUploadFailed", db := emptyDb } :=
  (batch_catch_and_report idHash failUploader noFail natName "u"
      [⟨"alpha/y.png", false, [1]⟩] emptyDb "UploadFailed" emptyDb).1
    (by decide) (by decide) rfl

/-- `createMany` never removes rows already in the table. -/
theorem createMany_mem_mono (rows : List GalleryRow) :
    ∀ (table : List GalleryRow) (x : GalleryRow), x ∈ table →
      x ∈ createManySkipDuplicates table rows := by
  induction rows with
  | nil => intro table x hx; exact hx
  | cons r0 rest ih =>
    intro table x hx
    unfold createManySkipDuplicates at ih ⊢
    rw [List.foldl_cons]
    apply ih
    by_cases hc : table.any (fun y => y.userId == r0.userId && y.checksum == r0.checksum) = true
    · rw [if_pos hc]; exact hx
    · rw [if_neg hc]; exact List.mem_append_left _ hx

/-- After `createMany`, every inserted row's key is present in the
result. -/
theorem createMany_covers (rows : List GalleryRow) :
    ∀ (table : List GalleryRow), ∀ r ∈ rows,
      ∃ x ∈ createManySkipDuplicates table rows,
        x.userId = r.userId ∧ x.checksum = r.checksum := by
  induction rows with
  | nil => intro table r hr; simp at hr
  | cons r0 rest ih =>
    intro table r hr
    unfold createManySkipDuplicates at ih ⊢
    rw [List.foldl_cons]
    rcases List.mem_cons.1 hr with rfl | hr2
    · by_cases hc : table.any (fun y => y.userId == r.userId && y.checksum == r.checksum) = true
      · obtain ⟨x, hx, hkey⟩ := List.any_eq_true.1 hc
        rw [Bool.and_eq_true, beq_iff_eq, beq_iff_eq] at hkey
        refine ⟨x, ?_, hkey⟩
        have hx2 : x ∈ (if table.any
            (fun y => y.userId == r.userId && y.checksum == r.checksum) = true
          then table else table ++ [r]) := by rw [if_pos hc]; exact hx
        exact createMany_mem_mono rest _ x hx2
      · have hx2 : r ∈ (if table.any
            (fun y => y.userId == r.userId && y.checksum == r.checksum) = true
          then table else table ++ [r]) := by
          rw [if_neg hc]
          exact List.mem_append_right _ (List.mem_singleton_self r)
        exact ⟨r, createMany_mem_mono rest _ r hx2, rfl, rfl⟩
    · exact ih _ r hr2

/-- When every row's key is already present, `createMany` inserts
nothing. -/
theorem createMany_of_covered (rows : List GalleryRow) :
    ∀ (table : List GalleryRow),
      (∀ r ∈ rows, ∃ x ∈ table, x.userId = r.userId ∧ x.checksum = r.checksum) →
      createManySkipDuplicates table rows = table := by
  induction rows with
  | nil => intro table _; rfl
  | cons r0 rest ih =>
    intro table h
    unfold createManySkipDuplicates at ih ⊢
    rw [List.foldl_cons]
    have hc : table.any (fun y => y.userId == r0.userId && y.checksum == r0.checksum) = true := by
      obtain ⟨x, hx, h1, h2⟩ := h r0 (List.mem_cons_self _ _)
      exact List.any_eq_true.2 ⟨x, hx, by
        rw [Bool.and_eq_true, beq_iff_eq, beq_iff_eq]; exact ⟨h1, h2⟩⟩
    rw [if_pos hc]
    exact ih table (fun r hr => h r (List.mem_cons_of_mem _ hr))

/-- `createMany` with `skipDuplicates` preserves uniqueness of
`(userId, checksum)`. -/
theorem createMany_pairwise (rows : List GalleryRow) :
    ∀ (table : List GalleryRow), table.Pairwise distinctKey →
      (createManySkipDuplicates table rows).Pairwise distinctKey := by
  induction rows with
  | nil => intro table h; exact h
  | cons r0 rest ih =>
    intro table h
    unfold createManySkipDuplicates at ih ⊢
    rw [List.foldl_cons]
    apply ih
    dsimp only
    by_cases hc : table.any (fun y => y.userId == r0.userId && y.checksum == r0.checksum) = true
    · rw [if_pos hc]; exact h
    · rw [if_neg hc]
      rw [List.pairwise_append]
      refine ⟨h, List.pairwise_singleton _ _, ?_⟩
      intro x hx y hy
      rw [List.mem_singleton] at hy
      subst hy
      have hall := List.any_eq_false.1 (Bool.eq_false_iff.2 hc) x hx
      intro hk
      apply hall
      rw [Bool.and_eq_true, beq_iff_eq, beq_iff_eq]
      exact hk

/-- Re-running `persistGalleryUploads` with the same uploads changes
nothing: every row it would insert is already keyed in the table. -/
theorem persistGalleryUploads_idem (hash : String → String) (ctx : GalleryUploadContext)
    (uploads : List (GenerationImageInput × GenerationImageInput))
    (table : List GalleryRow) :
    persistGalleryUploads hash ctx uploads (persistGalleryUploads hash ctx uploads table) =
      persistGalleryUploads hash ctx uploads table := by
  unfold persistGalleryUploads
  by_cases hu : uploads.length = 0
  · rw [if_pos hu, if_pos hu]
  rw [if_neg hu, if_neg hu]
  dsimp only
  by_cases hr : (uploads.filterMap (fun ou => galleryRowOf hash ctx ou.1 ou.2)).length = 0
  · rw [if_pos hr, if_pos hr]
  rw [if_neg hr, if_neg hr]
  apply createMany_of_covered
  intro r hr2
  exact createMany_covers _ table r hr2

/-- Claim C8: every persisted gallery row's checksum is the digest of the
original image's base64 payload, falling back to its upload URL and then
its id, and the row carries the context's user id; `createMany` with
`skipDuplicates` preserves uniqueness of `(userId, checksum)`; and
re-persisting identical uploads is a no-op rather than an error. -/
theorem gallery_checksum_dedup :
    (∀ (hash : String → String) (ctx : GalleryUploadContext)
        (o u : GenerationImageInput) (r : GalleryRow),
      galleryRowOf hash ctx o u = some r →
      r.checksum = computeImageChecksum hash o ∧ r.userId = ctx.userId) ∧
      (∀ (hash : String → String) (img : GenerationImageInput),
        (jsTruthyStr img.base64 = true →
          computeImageChecksum hash img = hash (img.base64.getD "")) ∧
        (jsTruthyStr img.base64 = false → jsTruthyStr img.uploadUrl = true →
          computeImageChecksum hash img = hash (img.uploadUrl.getD "")) ∧
        (jsTruthyStr img.base64 = false → jsTruthyStr img.uploadUrl = false →
          computeImageChecksum hash img = hash img.id)) ∧
      (∀ (table rows : List GalleryRow), table.Pairwise distinctKey →
        (createManySkipDuplicates table rows).Pairwise distinctKey) ∧
      (∀ (hash : String → String) (ctx : GalleryUploadContext)
          (uploads : List (GenerationImageInput × GenerationImageInput))
          (table : List GalleryRow),
        persistGalleryUploads hash ctx uploads
            (persistGalleryUploads hash ctx uploads table) =
          persistGalleryUploads hash ctx uploads table) := by
  refine ⟨?_, ?_, ?_, ?_⟩
  · intro hash ctx o u r h
    unfold galleryRowOf at h
    by_cases ht : jsTruthyStr u.uploadUrl = false
    · rw [if_pos ht] at h
      exact absurd h (by simp)
    · rw [if_neg ht] at h
      simp only [Option.some.injEq] at h
      rw [← h]
      exact ⟨rfl, rfl⟩
  · intro hash img
    refine ⟨?_, ?_, ?_⟩
    · intro h1
      unfold computeImageChecksum
      rw [if_pos h1]
    · intro h1 h2
      unfold computeImageChecksum
      rw [if_neg (by rw [h1]; simp), if_pos h2]
    · intro h1 h2
      unfold computeImageChecksum
      rw [if_neg (by rw [h1]; simp), if_neg (by rw [h2]; simp)]
  · intro table rows h
    exact createMany_pairwise rows table h
  · intro hash ctx uploads table
    exact persistGalleryUploads_idem hash ctx uploads table

/-- Witness for claim C8: the concrete row built for `witImage` carries the
checksum of its base64 payload and the context's user id. -/
theorem gallery_checksum_dedup_witness :
    witRow.checksum = computeImageChecksum idHash witImage ∧ witRow.userId = "u" :=
  gallery_checksum_dedup.1 idHash { userId := "u" } witImage witUploaded witRow rfl

end Follio
